import Mathlib

/-!
Verification of the http-content-range parser.

The Rust source parses the HTTP `Content-Range` response header from a byte
slice.  We embed the code shallowly: a byte slice becomes a `List Nat`
(each element a byte value), the peekable iterator becomes explicit list
passing (a "peeked" byte stays at the head of the returned list), `u64`
becomes `Nat` guarded by `U64_MAX` at every checked operation, and fallible
code returns `Option`.
-/

namespace HttpContentRange

/-- Maximum value of a `u64` (all integer fields in the source are `u64`). -/
def U64_MAX : Nat := 2 ^ 64 - 1

/-- Rust `u64::checked_mul`: multiplication failing on 64-bit overflow. -/
def checked_mul (a b : Nat) : Option Nat :=
  if a * b ≤ U64_MAX then some (a * b) else none

/-- Rust `u64::checked_add`: addition failing on 64-bit overflow. -/
def checked_add (a b : Nat) : Option Nat :=
  if a + b ≤ U64_MAX then some (a + b) else none

/-- utils.rs `fail_if`: returns `none` when the test is true. -/
def fail_if (test : Bool) : Option Unit :=
  if test then none else some ()

/-- utils.rs `is_whitespace`: only tab (9) and space (32) count. -/
def is_whitespace (c : Nat) : Bool :=
  c == 9 || c == 32

/-- utils.rs `is_digit`: ASCII digits `b'0'` (48) through `b'9'` (57). -/
def is_digit (c : Nat) : Bool :=
  48 ≤ c && c ≤ 57

/-- utils.rs `into_digit`: `c - b'0'`. -/
def into_digit (c : Nat) : Nat := c - 48

/-- utils.rs `IterExt::skip_spaces`: advance past whitespace and peek the next
byte.  The peeked byte stays at the head of the returned list. -/
def skip_spaces : List Nat → Option (Nat × List Nat)
  | [] => none
  | c :: l => if is_whitespace c then skip_spaces l else some (c, c :: l)

/-- utils.rs `IterExt::parse_separator`: skip spaces, require the given
separator byte, consume it, skip spaces again and peek what follows. -/
def parse_separator (sep : Nat) (l : List Nat) : Option (Nat × List Nat) :=
  match skip_spaces l with
  | none => none
  | some (c, l1) =>
    if c ≠ sep then none
    else
      match l1 with
      | [] => none
      | _ :: l2 => skip_spaces l2

/-- One accumulation step of utils.rs `IterExt::parse_u64`:
`res.checked_mul(10)?.checked_add(d)?`. -/
def checked_step (res d : Nat) : Option Nat :=
  match checked_mul res 10 with
  | none => none
  | some m => checked_add m d

/-- Accumulation loop of utils.rs `IterExt::parse_u64`: while the peeked byte
is a digit, fold it in with `checked_mul`/`checked_add`; stop (without
consuming) at the first non-digit or at end of input. -/
def parse_u64_loop : Nat → List Nat → Option (Nat × List Nat)
  | res, [] => some (res, [])
  | res, c :: rest =>
    if is_digit c then
      match checked_step res (into_digit c) with
      | none => none
      | some r => parse_u64_loop r rest
    else some (res, c :: rest)

/-- utils.rs `IterExt::parse_u64`: the first byte must be a digit (consumed),
then the accumulation loop runs. -/
def parse_u64 : List Nat → Option (Nat × List Nat)
  | [] => none
  | c :: rest => if is_digit c then parse_u64_loop (into_digit c) rest else none

/-- lib.rs `ContentRangeBytes`. -/
structure ContentRangeBytes where
  first_byte : Nat
  last_byte : Nat
  complete_length : Nat
deriving DecidableEq

/-- lib.rs `ContentRangeUnbound`. -/
structure ContentRangeUnbound where
  first_byte : Nat
  last_byte : Nat
deriving DecidableEq

/-- lib.rs `ContentRangeUnsatisfied`. -/
structure ContentRangeUnsatisfied where
  complete_length : Nat
deriving DecidableEq

/-- lib.rs `ContentRange`: the four-variant result of parsing. -/
inductive ContentRange where
  | Bytes : ContentRangeBytes → ContentRange
  | UnboundBytes : ContentRangeUnbound → ContentRange
  | Unsatisfied : ContentRangeUnsatisfied → ContentRange
  | Unknown : ContentRange
deriving DecidableEq

/-- lib.rs `PREFIX = b"bytes"` (renamed: the original name collides with a
reserved word here). -/
def BYTES_UNIT : List Nat := [98, 121, 116, 101, 115]

/-- lib.rs `PREFIX_LEN = 5`. -/
def BYTES_UNIT_LEN : Nat := 5

/-- Final step of lib.rs `parse_opt`: "verify there is nothing left" —
skip trailing spaces and succeed only at end of input. -/
def finishParse (res : ContentRange) (l : List Nat) : Option ContentRange :=
  match skip_spaces l with
  | none => some res
  | some _ => none

/-- The `*` branch of lib.rs `parse_opt` (unsatisfied range), entered with the
peeked `*` still at the head of the list. -/
def parse_unsatisfied (iter1 : List Nat) : Option ContentRange :=
  match iter1 with
  | [] => none
  | _ :: iter2 =>
    match parse_separator 47 iter2 with
    | none => none
    | some (_, iter3) =>
      match parse_u64 iter3 with
      | none => none
      | some (cl, iter4) => finishParse (.Unsatisfied ⟨cl⟩) iter4

/-- The byte-range branch of lib.rs `parse_opt`, entered with the first
non-space byte after the unit still at the head of the list. -/
def parse_byte_range (iter1 : List Nat) : Option ContentRange :=
  match parse_u64 iter1 with
  | none => none
  | some (fb, iter2) =>
    match parse_separator 45 iter2 with
    | none => none
    | some (_, iter3) =>
      match parse_u64 iter3 with
      | none => none
      | some (lb, iter4) =>
        match fail_if (decide (fb > lb)) with
        | none => none
        | some _ =>
          match parse_separator 47 iter4 with
          | none => none
          | some (c2, iter5) =>
            if c2 = 42 then
              match iter5 with
              | [] => none
              | _ :: iter6 => finishParse (.UnboundBytes ⟨fb, lb⟩) iter6
            else
              match parse_u64 iter5 with
              | none => none
              | some (cl, iter6) =>
                match fail_if (decide (lb ≥ cl)) with
                | none => none
                | some _ => finishParse (.Bytes ⟨fb, lb, cl⟩) iter6

/-- Body of lib.rs `parse_opt` after the mandatory whitespace byte: skip
spaces, then branch on whether the next byte is `*` (42). -/
def parse_body (iter0 : List Nat) : Option ContentRange :=
  match skip_spaces iter0 with
  | none => none
  | some (c1, iter1) =>
    if c1 = 42 then parse_unsatisfied iter1 else parse_byte_range iter1

/-- lib.rs `ContentRange::parse_opt`: check the `bytes` unit, require one
whitespace byte, then run the body. -/
def parse_opt (header : List Nat) : Option ContentRange :=
  if BYTES_UNIT.isPrefixOf header then
    match header.drop BYTES_UNIT_LEN with
    | [] => none
    | c0 :: iter0 =>
      match fail_if (!is_whitespace c0) with
      | none => none
      | some _ => parse_body iter0
  else none

/-- lib.rs `ContentRange::parse_bytes`: `parse_opt(..).unwrap_or(Unknown)`. -/
def parse_bytes (header : List Nat) : ContentRange :=
  (parse_opt header).getD ContentRange.Unknown

/-- UTF-8 encoding of one character (Rust `str` is UTF-8, so
`str::as_bytes` on a string is the concatenation of these). -/
def charUtf8 (c : Char) : List Nat :=
  let n := c.toNat
  if n < 128 then [n]
  else if n < 2048 then [192 + n / 64, 128 + n % 64]
  else if n < 65536 then [224 + n / 4096, 128 + (n / 64) % 64, 128 + n % 64]
  else [240 + n / 262144, 128 + (n / 4096) % 64, 128 + (n / 64) % 64, 128 + n % 64]

/-- Rust `str::as_bytes`: the UTF-8 bytes of a string. -/
def strBytes (s : String) : List Nat :=
  (s.data.map charUtf8).flatten

/-- lib.rs `ContentRange::parse`: parse the string through its UTF-8 bytes. -/
def parse (header : String) : ContentRange :=
  parse_bytes (strBytes header)

/-! Statement devices: decimal rendering of a number and small head tests,
used only to state properties about the parser. -/

/-- True when the list starts with an ASCII digit byte. -/
def firstIsDigit : List Nat → Bool
  | [] => false
  | c :: _ => is_digit c

/-- True when the list starts with a whitespace byte. -/
def firstIsWS : List Nat → Bool
  | [] => false
  | c :: _ => is_whitespace c

/-- True when every byte of the list is whitespace. -/
def allWS (w : List Nat) : Bool := w.all is_whitespace

/-- Value of a big-endian digit list (most significant digit first). -/
def beFold (L : List Nat) : Nat := L.foldl (fun a d => a * 10 + d) 0

/-- Big-endian decimal digits of `n`, computed with explicit fuel so that the
definition is structural and kernel-evaluable. -/
def natDigitsAux : Nat → Nat → List Nat
  | 0, _ => []
  | _ + 1, 0 => []
  | fuel + 1, n + 1 => natDigitsAux fuel ((n + 1) / 10) ++ [(n + 1) % 10]

/-- Big-endian decimal digits of `n` (`[0]` for zero). -/
def beDigits (n : Nat) : List Nat :=
  if n = 0 then [0] else natDigitsAux n n

/-- Canonical decimal rendering of `n` as ASCII bytes. -/
def renderNat (n : Nat) : List Nat :=
  (beDigits n).map (· + 48)

/-! Helper lemmas about the scanner primitives. -/

theorem ws_not_digit {c : Nat} (h : is_whitespace c = true) : is_digit c = false := by
  simp only [is_whitespace, Bool.or_eq_true, beq_iff_eq] at h
  rcases h with h | h <;> simp [is_digit, h]

theorem digit_char_is_digit {d : Nat} (h : d < 10) : is_digit (d + 48) = true := by
  simp only [is_digit, Bool.and_eq_true, decide_eq_true_eq]
  omega

theorem digit_char_not_ws {d : Nat} (h : d < 10) : is_whitespace (d + 48) = false := by
  simp only [is_whitespace, Bool.or_eq_false_iff, beq_eq_false_iff_ne, ne_eq]
  omega

theorem into_digit_char (d : Nat) : into_digit (d + 48) = d := by
  simp [into_digit]

theorem skip_spaces_ws_append {w : List Nat} (l : List Nat) (h : allWS w = true) :
    skip_spaces (w ++ l) = skip_spaces l := by
  induction w with
  | nil => rfl
  | cons c w ih =>
    simp only [allWS, List.all_cons, Bool.and_eq_true] at h
    simp only [List.cons_append, skip_spaces, h.1, if_true]
    exact ih (by simp [allWS, h.2])

theorem skip_spaces_not_ws {c : Nat} (l : List Nat) (h : is_whitespace c = false) :
    skip_spaces (c :: l) = some (c, c :: l) := by
  simp [skip_spaces, h]

theorem skip_spaces_none_iff (l : List Nat) : skip_spaces l = none ↔ allWS l = true := by
  induction l with
  | nil => simp [skip_spaces, allWS]
  | cons c l ih =>
    cases h : is_whitespace c with
    | true =>
      simp only [skip_spaces, h, if_true]
      rw [ih]
      simp [allWS, h]
    | false => simp [skip_spaces, h, allWS]

theorem finishParse_eq (res : ContentRange) (l : List Nat) :
    finishParse res l = if allWS l then some res else none := by
  by_cases h : allWS l = true
  · rw [if_pos h]
    unfold finishParse
    rw [(skip_spaces_none_iff l).mpr h]
  · rw [if_neg h]
    unfold finishParse
    cases hs : skip_spaces l with
    | none => exact absurd ((skip_spaces_none_iff l).mp hs) h
    | some p => rfl

theorem parse_separator_spec (sep : Nat) {w : List Nat} (l : List Nat)
    (hw : allWS w = true) (hsep : is_whitespace sep = false) :
    parse_separator sep (w ++ sep :: l) = skip_spaces l := by
  unfold parse_separator
  rw [skip_spaces_ws_append _ hw, skip_spaces_not_ws _ hsep]
  simp

/-! Helper lemmas about `parse_u64` and decimal digit lists. -/

theorem foldl_digits_mono (L : List Nat) (res : Nat) :
    res ≤ L.foldl (fun a d => a * 10 + d) res := by
  induction L generalizing res with
  | nil => simp
  | cons d L ih =>
    simp only [List.foldl_cons]
    calc res ≤ res * 10 + d := by omega
    _ ≤ _ := ih _

theorem checked_mul_le {a b : Nat} (h : a * b ≤ U64_MAX) :
    checked_mul a b = some (a * b) := by
  rw [checked_mul, if_pos h]

theorem checked_mul_gt {a b : Nat} (h : ¬ a * b ≤ U64_MAX) : checked_mul a b = none := by
  rw [checked_mul, if_neg h]

theorem checked_add_le {a b : Nat} (h : a + b ≤ U64_MAX) :
    checked_add a b = some (a + b) := by
  rw [checked_add, if_pos h]

theorem checked_add_gt {a b : Nat} (h : ¬ a + b ≤ U64_MAX) : checked_add a b = none := by
  rw [checked_add, if_neg h]

theorem checked_step_le {res d : Nat} (h : res * 10 + d ≤ U64_MAX) :
    checked_step res d = some (res * 10 + d) := by
  have h1 : res * 10 ≤ U64_MAX := by omega
  rw [checked_step, checked_mul_le h1]
  exact checked_add_le h

theorem checked_step_over {res d : Nat} (h : ¬ res * 10 + d ≤ U64_MAX) :
    checked_step res d = none := by
  by_cases h1 : res * 10 ≤ U64_MAX
  · rw [checked_step, checked_mul_le h1]
    exact checked_add_gt h
  · rw [checked_step, checked_mul_gt h1]

theorem parse_u64_loop_step {d : Nat} (res : Nat) (t : List Nat) (hd : d < 10)
    (h : res * 10 + d ≤ U64_MAX) :
    parse_u64_loop res ((d + 48) :: t) = parse_u64_loop (res * 10 + d) t := by
  simp only [parse_u64_loop, digit_char_is_digit hd, if_true,
    into_digit_char, checked_step_le h]

theorem parse_u64_loop_step_over {d : Nat} (res : Nat) (t : List Nat) (hd : d < 10)
    (h : ¬ res * 10 + d ≤ U64_MAX) :
    parse_u64_loop res ((d + 48) :: t) = none := by
  simp only [parse_u64_loop, digit_char_is_digit hd, if_true,
    into_digit_char, checked_step_over h]

theorem parse_u64_loop_append (L : List Nat) (res : Nat) (rest : List Nat)
    (hd : ∀ d ∈ L, d < 10)
    (hbound : L.foldl (fun a d => a * 10 + d) res ≤ U64_MAX)
    (hrest : firstIsDigit rest = false) :
    parse_u64_loop res (L.map (· + 48) ++ rest) =
      some (L.foldl (fun a d => a * 10 + d) res, rest) := by
  induction L generalizing res with
  | nil =>
    simp only [List.map_nil, List.nil_append, List.foldl_nil]
    cases rest with
    | nil => rfl
    | cons c r =>
      simp only [firstIsDigit] at hrest
      simp [parse_u64_loop, hrest]
  | cons d L ih =>
    have hd0 : d < 10 := hd d (by simp)
    have hstep : res * 10 + d ≤ U64_MAX := by
      have hm := foldl_digits_mono L (res * 10 + d)
      simp only [List.foldl_cons] at hbound
      omega
    simp only [List.map_cons, List.cons_append, List.foldl_cons]
    rw [parse_u64_loop_step res _ hd0 hstep]
    simp only [List.foldl_cons] at hbound
    exact ih _ (fun x hx => hd x (by simp [hx])) hbound

theorem parse_u64_loop_overflow (L : List Nat) (res : Nat) (rest : List Nat)
    (hd : ∀ d ∈ L, d < 10) (hres : res ≤ U64_MAX)
    (hover : U64_MAX < L.foldl (fun a d => a * 10 + d) res) :
    parse_u64_loop res (L.map (· + 48) ++ rest) = none := by
  induction L generalizing res with
  | nil => simp only [List.foldl_nil] at hover; omega
  | cons d L ih =>
    have hd0 : d < 10 := hd d (by simp)
    simp only [List.foldl_cons] at hover
    by_cases hstep : res * 10 + d ≤ U64_MAX
    · simp only [List.map_cons, List.cons_append]
      rw [parse_u64_loop_step res _ hd0 hstep]
      exact ih _ (fun x hx => hd x (by simp [hx])) hstep hover
    · simp only [List.map_cons, List.cons_append]
      exact parse_u64_loop_step_over res _ hd0 hstep

theorem parse_u64_be (L : List Nat) (rest : List Nat) (hne : L ≠ [])
    (hd : ∀ d ∈ L, d < 10) (hbound : beFold L ≤ U64_MAX)
    (hrest : firstIsDigit rest = false) :
    parse_u64 (L.map (· + 48) ++ rest) = some (beFold L, rest) := by
  cases L with
  | nil => exact absurd rfl hne
  | cons d L =>
    have hd0 : d < 10 := hd d (by simp)
    have hfold : beFold (d :: L) = L.foldl (fun a d => a * 10 + d) d := by
      simp [beFold]
    simp only [List.map_cons, List.cons_append, parse_u64,
      digit_char_is_digit hd0, if_true, into_digit_char, hfold]
    rw [hfold] at hbound
    exact parse_u64_loop_append L d rest (fun x hx => hd x (by simp [hx])) hbound hrest

theorem parse_u64_be_overflow (L : List Nat) (rest : List Nat) (hne : L ≠ [])
    (hd : ∀ d ∈ L, d < 10) (hover : U64_MAX < beFold L) :
    parse_u64 (L.map (· + 48) ++ rest) = none := by
  cases L with
  | nil => exact absurd rfl hne
  | cons d L =>
    have hd0 : d < 10 := hd d (by simp)
    have hfold : beFold (d :: L) = L.foldl (fun a d => a * 10 + d) d := by
      simp [beFold]
    simp only [List.map_cons, List.cons_append, parse_u64,
      digit_char_is_digit hd0, if_true, into_digit_char]
    rw [hfold] at hover
    exact parse_u64_loop_overflow L d rest (fun x hx => hd x (by simp [hx]))
      (by unfold U64_MAX; omega) hover

/-! Lemmas about the decimal rendering. -/

theorem natDigitsAux_foldl (fuel n : Nat) (h : n ≤ fuel) :
    (natDigitsAux fuel n).foldl (fun a d => a * 10 + d) 0 = n := by
  induction fuel generalizing n with
  | zero =>
    have : n = 0 := by omega
    subst this
    rfl
  | succ fuel ih =>
    cases n with
    | zero => rfl
    | succ m =>
      rw [natDigitsAux, List.foldl_append]
      simp only [List.foldl_cons, List.foldl_nil]
      rw [ih ((m + 1) / 10) (by omega)]
      omega

theorem natDigitsAux_lt (fuel n : Nat) : ∀ d ∈ natDigitsAux fuel n, d < 10 := by
  induction fuel generalizing n with
  | zero => simp [natDigitsAux]
  | succ fuel ih =>
    cases n with
    | zero => simp [natDigitsAux]
    | succ m =>
      rw [natDigitsAux]
      intro d hd
      rw [List.mem_append] at hd
      rcases hd with h | h
      · exact ih _ _ h
      · simp only [List.mem_singleton] at h
        omega

theorem beFold_beDigits (n : Nat) : beFold (beDigits n) = n := by
  by_cases h : n = 0
  · simp [beDigits, beFold, h]
  · rw [beDigits, if_neg h]
    exact natDigitsAux_foldl n n le_rfl

theorem beDigits_lt (n : Nat) : ∀ d ∈ beDigits n, d < 10 := by
  by_cases h : n = 0
  · simp [beDigits, h]
  · rw [beDigits, if_neg h]
    exact natDigitsAux_lt n n

theorem beDigits_ne_nil (n : Nat) : beDigits n ≠ [] := by
  by_cases h : n = 0
  · simp [beDigits, h]
  · rw [beDigits, if_neg h]
    cases n with
    | zero => exact absurd rfl h
    | succ m =>
      rw [natDigitsAux]
      simp

theorem foldl_replicate_zero (k : Nat) :
    (List.replicate k 0).foldl (fun a d => a * 10 + d) 0 = 0 := by
  induction k with
  | zero => rfl
  | succ k ih =>
    simp only [List.replicate_succ, List.foldl_cons]
    simpa using ih

theorem beFold_replicate_append (k n : Nat) :
    beFold (List.replicate k 0 ++ beDigits n) = n := by
  rw [beFold, List.foldl_append, foldl_replicate_zero]
  exact beFold_beDigits n

theorem replicate_append_lt (k n : Nat) :
    ∀ d ∈ List.replicate k 0 ++ beDigits n, d < 10 := by
  intro d hd
  rw [List.mem_append] at hd
  rcases hd with h | h
  · have := List.eq_of_mem_replicate h
    omega
  · exact beDigits_lt n d h

/-! Lemmas about head tests used at token boundaries. -/

theorem firstIsDigit_ws_append {w : List Nat} (l : List Nat) (hw : allWS w = true)
    (hl : firstIsDigit l = false) : firstIsDigit (w ++ l) = false := by
  cases w with
  | nil => simpa
  | cons c w =>
    simp only [allWS, List.all_cons, Bool.and_eq_true] at hw
    simp [firstIsDigit, ws_not_digit hw.1]

theorem firstIsDigit_cons_45 (l : List Nat) : firstIsDigit (45 :: l) = false := by
  simp [firstIsDigit, is_digit]

theorem firstIsDigit_cons_47 (l : List Nat) : firstIsDigit (47 :: l) = false := by
  simp [firstIsDigit, is_digit]

theorem firstIsDigit_of_allWS {w : List Nat} (hw : allWS w = true) :
    firstIsDigit w = false := by
  cases w with
  | nil => rfl
  | cons c w =>
    simp only [allWS, List.all_cons, Bool.and_eq_true] at hw
    simp [firstIsDigit, ws_not_digit hw.1]

/-! Stepping through `parse_opt` on inputs with the `bytes` unit. -/

theorem parse_opt_cons (c0 : Nat) (iter0 : List Nat) (h : is_whitespace c0 = true) :
    parse_opt (BYTES_UNIT ++ c0 :: iter0) = parse_body iter0 := by
  unfold parse_opt
  rw [if_pos]
  · have hdrop : (BYTES_UNIT ++ c0 :: iter0).drop BYTES_UNIT_LEN = c0 :: iter0 := by
      have : BYTES_UNIT_LEN = BYTES_UNIT.length := rfl
      rw [this, List.drop_left]
    rw [hdrop]
    simp [fail_if, h]
  · rw [ List.isPrefixOf_iff_prefix]
    exact List.prefix_append _ _

theorem fail_if_decide_false {p : Prop} [Decidable p] (h : ¬ p) :
    fail_if (decide p) = some () := by
  simp [fail_if, h]

theorem fail_if_decide_true {p : Prop} [Decidable p] (h : p) :
    fail_if (decide p) = none := by
  simp [fail_if, h]

/-- Master lemma: running the grammar driver on a fully general bounded-range
header `A - B / C` with arbitrary whitespace runs at every token boundary.
The digit lists are arbitrary big-endian digit strings, so this also covers
leading zeros. -/
theorem parse_body_range (La Lb Lc w0 w1 w2 w3 w4 suffix : List Nat)
    (hLa : La ≠ []) (hLb : Lb ≠ []) (hLc : Lc ≠ [])
    (hda : ∀ d ∈ La, d < 10) (hdb : ∀ d ∈ Lb, d < 10) (hdc : ∀ d ∈ Lc, d < 10)
    (hba : beFold La ≤ U64_MAX) (hbb : beFold Lb ≤ U64_MAX) (hbc : beFold Lc ≤ U64_MAX)
    (h0 : allWS w0 = true) (h1 : allWS w1 = true) (h2 : allWS w2 = true)
    (h3 : allWS w3 = true) (h4 : allWS w4 = true)
    (hs : firstIsDigit suffix = false) :
    parse_body (w0 ++ (La.map (· + 48) ++ (w1 ++ 45 :: (w2 ++ (Lb.map (· + 48) ++
        (w3 ++ 47 :: (w4 ++ (Lc.map (· + 48) ++ suffix)))))))) =
      if beFold La ≤ beFold Lb ∧ beFold Lb < beFold Lc then
        finishParse (.Bytes ⟨beFold La, beFold Lb, beFold Lc⟩) suffix
      else none := by
  obtain ⟨a0, La, rfl⟩ : ∃ a0 La0, La = a0 :: La0 := by
    cases La with
    | nil => exact absurd rfl hLa
    | cons x xs => exact ⟨x, xs, rfl⟩
  obtain ⟨b0, Lb, rfl⟩ : ∃ b0 Lb0, Lb = b0 :: Lb0 := by
    cases Lb with
    | nil => exact absurd rfl hLb
    | cons x xs => exact ⟨x, xs, rfl⟩
  obtain ⟨c0, Lc, rfl⟩ : ∃ c0 Lc0, Lc = c0 :: Lc0 := by
    cases Lc with
    | nil => exact absurd rfl hLc
    | cons x xs => exact ⟨x, xs, rfl⟩
  have ha0 : a0 < 10 := hda a0 (by simp)
  have hb0 : b0 < 10 := hdb b0 (by simp)
  have hc0 : c0 < 10 := hdc c0 (by simp)
  have hu1 : parse_u64 ((a0 :: La).map (· + 48) ++ (w1 ++ 45 :: (w2 ++ ((b0 :: Lb).map (· + 48) ++
      (w3 ++ 47 :: (w4 ++ ((c0 :: Lc).map (· + 48) ++ suffix))))))) =
      some (beFold (a0 :: La), w1 ++ 45 :: (w2 ++ ((b0 :: Lb).map (· + 48) ++
      (w3 ++ 47 :: (w4 ++ ((c0 :: Lc).map (· + 48) ++ suffix)))))) :=
    parse_u64_be _ _ (by simp) hda hba
      (firstIsDigit_ws_append _ h1 (firstIsDigit_cons_45 _))
  have hu2 : parse_u64 ((b0 :: Lb).map (· + 48) ++ (w3 ++ 47 :: (w4 ++ ((c0 :: Lc).map (· + 48) ++ suffix)))) =
      some (beFold (b0 :: Lb), w3 ++ 47 :: (w4 ++ ((c0 :: Lc).map (· + 48) ++ suffix))) :=
    parse_u64_be _ _ (by simp) hdb hbb
      (firstIsDigit_ws_append _ h3 (firstIsDigit_cons_47 _))
  have hu3 : parse_u64 ((c0 :: Lc).map (· + 48) ++ suffix) = some (beFold (c0 :: Lc), suffix) :=
    parse_u64_be _ _ (by simp) hdc hbc hs
  simp only [List.map_cons, List.cons_append] at hu1 hu2 hu3
  unfold parse_body
  rw [skip_spaces_ws_append _ h0]
  simp only [List.map_cons, List.cons_append]
  rw [skip_spaces_not_ws _ (digit_char_not_ws ha0)]
  dsimp only
  rw [if_neg (by omega : ¬ a0 + 48 = 42)]
  unfold parse_byte_range
  rw [hu1]
  dsimp only
  rw [parse_separator_spec 45 _ h1 (by decide)]
  rw [skip_spaces_ws_append _ h2]
  rw [skip_spaces_not_ws _ (digit_char_not_ws hb0)]
  dsimp only
  rw [hu2]
  dsimp only
  by_cases hab : beFold (a0 :: La) ≤ beFold (b0 :: Lb)
  · rw [fail_if_decide_false (by omega : ¬ beFold (a0 :: La) > beFold (b0 :: Lb))]
    dsimp only
    rw [parse_separator_spec 47 _ h3 (by decide)]
    rw [skip_spaces_ws_append _ h4]
    rw [skip_spaces_not_ws _ (digit_char_not_ws hc0)]
    dsimp only
    rw [if_neg (by omega : ¬ c0 + 48 = 42)]
    rw [hu3]
    dsimp only
    by_cases hbc2 : beFold (b0 :: Lb) < beFold (c0 :: Lc)
    · rw [fail_if_decide_false (by omega : ¬ beFold (b0 :: Lb) ≥ beFold (c0 :: Lc))]
      dsimp only
      rw [if_pos ⟨hab, hbc2⟩]
    · rw [fail_if_decide_true (by omega : beFold (b0 :: Lb) ≥ beFold (c0 :: Lc))]
      dsimp only
      rw [if_neg (by tauto)]
  · rw [fail_if_decide_true (by omega : beFold (a0 :: La) > beFold (b0 :: Lb))]
    dsimp only
    rw [if_neg (by tauto)]

/-- Master lemma: the unbound-range header `A - B / *` with arbitrary
whitespace runs at every token boundary. -/
theorem parse_body_unbound (La Lb w0 w1 w2 w3 w4 suffix : List Nat)
    (hLa : La ≠ []) (hLb : Lb ≠ [])
    (hda : ∀ d ∈ La, d < 10) (hdb : ∀ d ∈ Lb, d < 10)
    (hba : beFold La ≤ U64_MAX) (hbb : beFold Lb ≤ U64_MAX)
    (h0 : allWS w0 = true) (h1 : allWS w1 = true) (h2 : allWS w2 = true)
    (h3 : allWS w3 = true) (h4 : allWS w4 = true) :
    parse_body (w0 ++ (La.map (· + 48) ++ (w1 ++ 45 :: (w2 ++ (Lb.map (· + 48) ++
        (w3 ++ 47 :: (w4 ++ 42 :: suffix))))))) =
      if beFold La ≤ beFold Lb then
        finishParse (.UnboundBytes ⟨beFold La, beFold Lb⟩) suffix
      else none := by
  obtain ⟨a0, La, rfl⟩ : ∃ a0 La0, La = a0 :: La0 := by
    cases La with
    | nil => exact absurd rfl hLa
    | cons x xs => exact ⟨x, xs, rfl⟩
  obtain ⟨b0, Lb, rfl⟩ : ∃ b0 Lb0, Lb = b0 :: Lb0 := by
    cases Lb with
    | nil => exact absurd rfl hLb
    | cons x xs => exact ⟨x, xs, rfl⟩
  have ha0 : a0 < 10 := hda a0 (by simp)
  have hb0 : b0 < 10 := hdb b0 (by simp)
  have hu1 : parse_u64 ((a0 :: La).map (· + 48) ++ (w1 ++ 45 :: (w2 ++ ((b0 :: Lb).map (· + 48) ++
      (w3 ++ 47 :: (w4 ++ 42 :: suffix)))))) =
      some (beFold (a0 :: La), w1 ++ 45 :: (w2 ++ ((b0 :: Lb).map (· + 48) ++
      (w3 ++ 47 :: (w4 ++ 42 :: suffix))))) :=
    parse_u64_be _ _ (by simp) hda hba
      (firstIsDigit_ws_append _ h1 (firstIsDigit_cons_45 _))
  have hu2 : parse_u64 ((b0 :: Lb).map (· + 48) ++ (w3 ++ 47 :: (w4 ++ 42 :: suffix))) =
      some (beFold (b0 :: Lb), w3 ++ 47 :: (w4 ++ 42 :: suffix)) :=
    parse_u64_be _ _ (by simp) hdb hbb
      (firstIsDigit_ws_append _ h3 (firstIsDigit_cons_47 _))
  simp only [List.map_cons, List.cons_append] at hu1 hu2
  unfold parse_body
  rw [skip_spaces_ws_append _ h0]
  simp only [List.map_cons, List.cons_append]
  rw [skip_spaces_not_ws _ (digit_char_not_ws ha0)]
  dsimp only
  rw [if_neg (by omega : ¬ a0 + 48 = 42)]
  unfold parse_byte_range
  rw [hu1]
  dsimp only
  rw [parse_separator_spec 45 _ h1 (by decide)]
  rw [skip_spaces_ws_append _ h2]
  rw [skip_spaces_not_ws _ (digit_char_not_ws hb0)]
  dsimp only
  rw [hu2]
  dsimp only
  by_cases hab : beFold (a0 :: La) ≤ beFold (b0 :: Lb)
  · rw [fail_if_decide_false (by omega : ¬ beFold (a0 :: La) > beFold (b0 :: Lb))]
    dsimp only
    rw [parse_separator_spec 47 _ h3 (by decide)]
    rw [skip_spaces_ws_append _ h4]
    rw [skip_spaces_not_ws _ (by decide : is_whitespace 42 = false)]
    dsimp only
    rw [if_pos rfl]
    rw [if_pos hab]
  · rw [fail_if_decide_true (by omega : beFold (a0 :: La) > beFold (b0 :: Lb))]
    dsimp only
    rw [if_neg hab]

theorem replicate_beDigits_ne_nil (k n : Nat) : List.replicate k 0 ++ beDigits n ≠ [] := by
  intro h
  rw [List.append_eq_nil] at h
  exact beDigits_ne_nil n h.2

/-- Claim C1: for `a ≤ b < c` (64-bit), the header `bytes {a}-{b}/{c}` parses
to `Bytes ⟨a, b, c⟩`, and it still does after inserting arbitrary runs of
spaces and tabs at every token boundary (the run after `bytes` must be
nonempty, starting with the whitespace byte `ws`). -/
theorem claim_c1 (a b c ws : Nat) (w0 w1 w2 w3 w4 w5 : List Nat)
    (hab : a ≤ b) (hbc : b < c) (hc : c ≤ U64_MAX)
    (hws : is_whitespace ws = true)
    (h0 : allWS w0 = true) (h1 : allWS w1 = true) (h2 : allWS w2 = true)
    (h3 : allWS w3 = true) (h4 : allWS w4 = true) (h5 : allWS w5 = true) :
    parse_bytes (BYTES_UNIT ++ ws :: (w0 ++ (renderNat a ++ (w1 ++ 45 :: (w2 ++ (renderNat b ++
      (w3 ++ 47 :: (w4 ++ (renderNat c ++ w5))))))))) = .Bytes ⟨a, b, c⟩ := by
  have hM := parse_body_range (beDigits a) (beDigits b) (beDigits c) w0 w1 w2 w3 w4 w5
    (beDigits_ne_nil a) (beDigits_ne_nil b) (beDigits_ne_nil c)
    (beDigits_lt a) (beDigits_lt b) (beDigits_lt c)
    (by rw [beFold_beDigits]; omega) (by rw [beFold_beDigits]; omega)
    (by rw [beFold_beDigits]; exact hc)
    h0 h1 h2 h3 h4 (firstIsDigit_of_allWS h5)
  rw [beFold_beDigits, beFold_beDigits, beFold_beDigits, if_pos ⟨hab, hbc⟩,
    finishParse_eq, if_pos h5] at hM
  unfold parse_bytes
  rw [parse_opt_cons _ _ hws]
  simp only [renderNat]
  rw [hM]
  rfl

theorem claim_c1_witness :
    parse_bytes (BYTES_UNIT ++ 32 :: ([] ++ (renderNat 0 ++ ([] ++ 45 :: ([] ++ (renderNat 9 ++
      ([] ++ 47 :: ([] ++ (renderNat 20 ++ ([] : List Nat)))))))))) = .Bytes ⟨0, 9, 20⟩ :=
  claim_c1 0 9 20 32 [] [] [] [] [] [] (by decide) (by decide) (by decide) (by decide)
    (by decide) (by decide) (by decide) (by decide) (by decide) (by decide)

/-- Claim C2: `bytes A-B/C` fails to parse whenever `A > B` or `B ≥ C`, and
`bytes A-B/*` fails whenever `A > B`. -/
theorem claim_c2 (A B C : Nat) (hA : A ≤ U64_MAX) (hB : B ≤ U64_MAX) (hC : C ≤ U64_MAX) :
    (A > B ∨ B ≥ C →
      parse_bytes (BYTES_UNIT ++ 32 :: (renderNat A ++ 45 :: (renderNat B ++ 47 :: renderNat C))) =
        .Unknown)
    ∧ (A > B →
      parse_bytes (BYTES_UNIT ++ 32 :: (renderNat A ++ 45 :: (renderNat B ++ [47, 42]))) =
        .Unknown) := by
  constructor
  · intro hfail
    have hM := parse_body_range (beDigits A) (beDigits B) (beDigits C) [] [] [] [] [] []
      (beDigits_ne_nil A) (beDigits_ne_nil B) (beDigits_ne_nil C)
      (beDigits_lt A) (beDigits_lt B) (beDigits_lt C)
      (by rw [beFold_beDigits]; exact hA) (by rw [beFold_beDigits]; exact hB)
      (by rw [beFold_beDigits]; exact hC)
      rfl rfl rfl rfl rfl rfl
    rw [beFold_beDigits, beFold_beDigits, beFold_beDigits, if_neg (by omega)] at hM
    simp only [List.nil_append, List.append_nil] at hM
    unfold parse_bytes
    rw [parse_opt_cons _ _ (by decide)]
    simp only [renderNat]
    rw [hM]
    rfl
  · intro hfail
    have hM := parse_body_unbound (beDigits A) (beDigits B) [] [] [] [] [] []
      (beDigits_ne_nil A) (beDigits_ne_nil B) (beDigits_lt A) (beDigits_lt B)
      (by rw [beFold_beDigits]; exact hA) (by rw [beFold_beDigits]; exact hB)
      rfl rfl rfl rfl rfl
    rw [beFold_beDigits, beFold_beDigits, if_neg (by omega)] at hM
    simp only [List.nil_append, List.append_nil] at hM
    unfold parse_bytes
    rw [parse_opt_cons _ _ (by decide)]
    simp only [renderNat]
    rw [hM]
    rfl

theorem claim_c2_witness :
    parse_bytes (BYTES_UNIT ++ 32 :: (renderNat 1 ++ 45 :: (renderNat 0 ++ 47 :: renderNat 20))) =
      .Unknown :=
  (claim_c2 1 0 20 (by decide) (by decide) (by decide)).1 (Or.inl (by decide))

/-- Claim C3: a decimal literal whose value exceeds `2^64 - 1` fails to parse
(no wraparound), a literal of value exactly `2^64 - 1` is accepted, and
`bytes 0-18446744073709551615/*` parses as an unbound range. -/
theorem claim_c3 :
    (∀ (n : Nat) (rest : List Nat), U64_MAX < n → parse_u64 (renderNat n ++ rest) = none)
    ∧ (∀ rest : List Nat, firstIsDigit rest = false →
        parse_u64 (renderNat U64_MAX ++ rest) = some (U64_MAX, rest))
    ∧ parse_bytes (BYTES_UNIT ++ 32 :: (renderNat 0 ++ 45 :: (renderNat U64_MAX ++ [47, 42]))) =
        .UnboundBytes ⟨0, U64_MAX⟩ := by
  refine ⟨?_, ?_, ?_⟩
  · intro n rest hn
    have h := parse_u64_be_overflow (beDigits n) rest (beDigits_ne_nil n) (beDigits_lt n)
      (by rw [beFold_beDigits]; exact hn)
    simpa [renderNat] using h
  · intro rest hrest
    have h := parse_u64_be (beDigits U64_MAX) rest (beDigits_ne_nil _) (beDigits_lt _)
      (Nat.le_of_eq (beFold_beDigits _)) hrest
    simpa [renderNat, beFold_beDigits] using h
  · have hM := parse_body_unbound (beDigits 0) (beDigits U64_MAX) [] [] [] [] [] []
      (beDigits_ne_nil _) (beDigits_ne_nil _) (beDigits_lt _) (beDigits_lt _)
      (by rw [beFold_beDigits]; exact Nat.zero_le _) (Nat.le_of_eq (beFold_beDigits _))
      rfl rfl rfl rfl rfl
    rw [beFold_beDigits, beFold_beDigits, if_pos (Nat.zero_le _), finishParse_eq,
      if_pos (show allWS ([] : List Nat) = true from rfl)] at hM
    simp only [List.nil_append, List.append_nil] at hM
    unfold parse_bytes
    rw [parse_opt_cons _ _ (by decide)]
    simp only [renderNat]
    rw [hM]
    rfl

theorem claim_c3_witness : parse_u64 (renderNat (2 ^ 64) ++ []) = none :=
  claim_c3.1 (2 ^ 64) [] (by decide)

/-- Claim C5: after a complete bounded-range construct, the parse succeeds if
and only if every remaining byte is a space or tab; any non-whitespace
leftover makes the whole parse fail. -/
theorem claim_c5 (a b c : Nat) (suffix : List Nat)
    (hab : a ≤ b) (hbc : b < c) (hc : c ≤ U64_MAX) (hs : firstIsDigit suffix = false) :
    parse_bytes (BYTES_UNIT ++ 32 :: (renderNat a ++ 45 :: (renderNat b ++ 47 ::
      (renderNat c ++ suffix)))) =
      if allWS suffix then .Bytes ⟨a, b, c⟩ else .Unknown := by
  have hM := parse_body_range (beDigits a) (beDigits b) (beDigits c) [] [] [] [] [] suffix
    (beDigits_ne_nil a) (beDigits_ne_nil b) (beDigits_ne_nil c)
    (beDigits_lt a) (beDigits_lt b) (beDigits_lt c)
    (by rw [beFold_beDigits]; omega) (by rw [beFold_beDigits]; omega)
    (by rw [beFold_beDigits]; exact hc)
    rfl rfl rfl rfl rfl hs
  rw [beFold_beDigits, beFold_beDigits, beFold_beDigits, if_pos ⟨hab, hbc⟩,
    finishParse_eq] at hM
  simp only [List.nil_append] at hM
  unfold parse_bytes
  rw [parse_opt_cons _ _ (by decide)]
  simp only [renderNat]
  rw [hM]
  by_cases hws : allWS suffix = true
  · rw [if_pos hws, if_pos hws]; rfl
  · rw [if_neg hws, if_neg hws]; rfl

theorem claim_c5_witness :
    parse_bytes (BYTES_UNIT ++ 32 :: (renderNat 1 ++ 45 :: (renderNat 3 ++ 47 ::
      (renderNat 20 ++ [32, 49])))) = .Unknown := by
  have h := claim_c5 1 3 20 [32, 49] (by decide) (by decide) (by decide) (by decide)
  rw [h]
  decide

/-- Claim C10: leading zeros in any of the three numeric literals do not
change the parsed value. -/
theorem claim_c10 (a b c k1 k2 k3 : Nat) (hab : a ≤ b) (hbc : b < c) (hc : c ≤ U64_MAX) :
    parse_bytes (BYTES_UNIT ++ 32 :: (List.replicate k1 48 ++ (renderNat a ++ 45 ::
      (List.replicate k2 48 ++ (renderNat b ++ 47 ::
      (List.replicate k3 48 ++ renderNat c)))))) = .Bytes ⟨a, b, c⟩ := by
  have hM := parse_body_range (List.replicate k1 0 ++ beDigits a)
    (List.replicate k2 0 ++ beDigits b) (List.replicate k3 0 ++ beDigits c) [] [] [] [] [] []
    (replicate_beDigits_ne_nil k1 a) (replicate_beDigits_ne_nil k2 b)
    (replicate_beDigits_ne_nil k3 c)
    (replicate_append_lt k1 a) (replicate_append_lt k2 b) (replicate_append_lt k3 c)
    (by rw [beFold_replicate_append]; omega) (by rw [beFold_replicate_append]; omega)
    (by rw [beFold_replicate_append]; exact hc)
    rfl rfl rfl rfl rfl rfl
  rw [beFold_replicate_append, beFold_replicate_append, beFold_replicate_append,
    if_pos ⟨hab, hbc⟩, finishParse_eq,
    if_pos (show allWS ([] : List Nat) = true from rfl)] at hM
  simp only [List.map_append, List.map_replicate, Nat.zero_add, List.nil_append,
    List.append_nil, List.append_assoc] at hM
  unfold parse_bytes
  rw [parse_opt_cons _ _ (by decide)]
  simp only [renderNat]
  rw [hM]
  rfl

theorem claim_c10_witness :
    parse_bytes (BYTES_UNIT ++ 32 :: (List.replicate 1 48 ++ (renderNat 0 ++ 45 ::
      (List.replicate 1 48 ++ (renderNat 9 ++ 47 ::
      (List.replicate 1 48 ++ renderNat 20)))))) = .Bytes ⟨0, 9, 20⟩ :=
  claim_c10 0 9 20 1 1 1 (by decide) (by decide) (by decide)

/-- Claim C4: any input that does not start with the exact bytes `bytes`
followed by a whitespace byte fails to parse; in particular `Bytes 0-9/20`,
`bytes=1-2/3`, `bytesx`, ` bytes 1-2/3` and the empty input all fail. -/
theorem claim_c4 :
    (∀ l : List Nat,
      (BYTES_UNIT.isPrefixOf l && firstIsWS (l.drop BYTES_UNIT_LEN)) = false →
      parse_bytes l = .Unknown)
    ∧ parse_bytes [66, 121, 116, 101, 115, 32, 48, 45, 57, 47, 50, 48] = .Unknown
    ∧ parse_bytes [98, 121, 116, 101, 115, 61, 49, 45, 50, 47, 51] = .Unknown
    ∧ parse_bytes [98, 121, 116, 101, 115, 120] = .Unknown
    ∧ parse_bytes [32, 98, 121, 116, 101, 115, 32, 49, 45, 50, 47, 51] = .Unknown
    ∧ parse_bytes [] = .Unknown := by
  refine ⟨?_, by decide, by decide, by decide, by decide, by decide⟩
  intro l h
  unfold parse_bytes parse_opt
  cases hp : BYTES_UNIT.isPrefixOf l with
  | false =>
    rw [if_neg (show ¬ false = true by simp)]
    rfl
  | true =>
    rw [hp] at h
    simp only [Bool.true_and] at h
    rw [if_pos (show true = true from rfl)]
    cases hd : l.drop BYTES_UNIT_LEN with
    | nil => rfl
    | cons c r =>
      rw [hd] at h
      simp only [firstIsWS] at h
      dsimp only
      simp [fail_if, h]

theorem claim_c4_witness : parse_bytes [102, 111, 111] = .Unknown :=
  claim_c4.1 [102, 111, 111] (by decide)

/-- Claim C6: parsing is total — on every input it returns exactly one of the
four variants — and the digit-to-value conversion is only meaningful on
verified digit bytes: for a verified ASCII digit the subtraction by 48 does
not underflow and yields a value below 10. -/
theorem claim_c6 :
    (∀ l : List Nat, parse_bytes l = .Unknown ∨ (∃ v, parse_bytes l = .Bytes v) ∨
      (∃ v, parse_bytes l = .UnboundBytes v) ∨ (∃ v, parse_bytes l = .Unsatisfied v))
    ∧ (∀ c : Nat, is_digit c = true → 48 + into_digit c = c ∧ into_digit c < 10) := by
  constructor
  · intro l
    cases h : parse_bytes l with
    | Bytes v => exact Or.inr (Or.inl ⟨v, rfl⟩)
    | UnboundBytes v => exact Or.inr (Or.inr (Or.inl ⟨v, rfl⟩))
    | Unsatisfied v => exact Or.inr (Or.inr (Or.inr ⟨v, rfl⟩))
    | Unknown => exact Or.inl rfl
  · intro c hc
    simp only [is_digit, Bool.and_eq_true, decide_eq_true_eq] at hc
    simp only [into_digit]
    omega

theorem claim_c6_witness : 48 + into_digit 57 = 57 ∧ into_digit 57 < 10 :=
  claim_c6.2 57 (by decide)

/-- Claim C8: the only bytes treated as skippable whitespace are space (32)
and tab (9); a newline or carriage return where whitespace is expected makes
the parse fail, while a tab there succeeds. -/
theorem claim_c8 :
    (∀ c : Nat, is_whitespace c = true ↔ c = 9 ∨ c = 32)
    ∧ parse_bytes [98, 121, 116, 101, 115, 10, 48, 45, 57, 47, 50, 48] = .Unknown
    ∧ parse_bytes [98, 121, 116, 101, 115, 9, 48, 45, 57, 47, 50, 48] = .Bytes ⟨0, 9, 20⟩
    ∧ parse_bytes [98, 121, 116, 101, 115, 13, 48, 45, 57, 47, 50, 48] = .Unknown := by
  refine ⟨?_, by decide, by decide, by decide⟩
  intro c
  simp [is_whitespace]

/-- Claim C9: the string entry point agrees with the byte entry point on the
UTF-8 encoding of the string. -/
theorem claim_c9 (s : String) : parse s = parse_bytes (strBytes s) := rfl

/-! Inversion lemmas for claim C7: any successfully returned value satisfies
its variant's ordering invariant. -/

theorem finishParse_some {res r : ContentRange} {l : List Nat}
    (h : finishParse res l = some r) : r = res := by
  unfold finishParse at h
  split at h
  · exact (Option.some.inj h).symm
  · exact Option.noConfusion h

theorem fail_if_some {b : Bool} {u : Unit} (h : fail_if b = some u) : b = false := by
  cases b with
  | false => rfl
  | true => exact Option.noConfusion h

theorem parse_unsatisfied_shape {l : List Nat} {r : ContentRange}
    (h : parse_unsatisfied l = some r) : ∃ n, r = .Unsatisfied ⟨n⟩ := by
  unfold parse_unsatisfied at h
  split at h
  · exact Option.noConfusion h
  split at h
  · exact Option.noConfusion h
  split at h
  · exact Option.noConfusion h
  rename_i cl iter4 heq
  exact ⟨cl, finishParse_some h⟩

theorem parse_byte_range_bytes_inv {l : List Nat} {v : ContentRangeBytes}
    (h : parse_byte_range l = some (.Bytes v)) :
    v.first_byte ≤ v.last_byte ∧ v.last_byte < v.complete_length := by
  unfold parse_byte_range at h
  split at h
  · exact Option.noConfusion h
  split at h
  · exact Option.noConfusion h
  split at h
  · exact Option.noConfusion h
  split at h
  · exact Option.noConfusion h
  rename_i fb iter2 _ x iter3 _ lb iter4 _ u1 hfail1
  split at h
  · exact Option.noConfusion h
  rename_i c2 iter5 _
  split at h
  · split at h
    · exact Option.noConfusion h
    · have hv := finishParse_some h
      exact ContentRange.noConfusion hv
  · split at h
    · exact Option.noConfusion h
    split at h
    · exact Option.noConfusion h
    rename_i cl iter6 _ u2 hfail2
    have hv := finishParse_some h
    have h1 := fail_if_some hfail1
    have h2 := fail_if_some hfail2
    rw [decide_eq_false_iff_not] at h1 h2
    cases ContentRange.Bytes.inj hv
    simpa using ⟨by omega, by omega⟩

theorem parse_byte_range_unbound_inv {l : List Nat} {v : ContentRangeUnbound}
    (h : parse_byte_range l = some (.UnboundBytes v)) :
    v.first_byte ≤ v.last_byte := by
  unfold parse_byte_range at h
  split at h
  · exact Option.noConfusion h
  split at h
  · exact Option.noConfusion h
  split at h
  · exact Option.noConfusion h
  split at h
  · exact Option.noConfusion h
  rename_i fb iter2 _ x iter3 _ lb iter4 _ u1 hfail1
  split at h
  · exact Option.noConfusion h
  rename_i c2 iter5 _
  split at h
  · split at h
    · exact Option.noConfusion h
    · have hv := finishParse_some h
      have h1 := fail_if_some hfail1
      rw [decide_eq_false_iff_not] at h1
      cases ContentRange.UnboundBytes.inj hv
      simpa using by omega
  · split at h
    · exact Option.noConfusion h
    split at h
    · exact Option.noConfusion h
    have hv := finishParse_some h
    exact ContentRange.noConfusion hv

theorem parse_body_bytes_inv {l : List Nat} {v : ContentRangeBytes}
    (h : parse_body l = some (.Bytes v)) :
    v.first_byte ≤ v.last_byte ∧ v.last_byte < v.complete_length := by
  unfold parse_body at h
  split at h
  · exact Option.noConfusion h
  rename_i c1 iter1 _
  split at h
  · obtain ⟨n, hn⟩ := parse_unsatisfied_shape h
    exact ContentRange.noConfusion hn
  · exact parse_byte_range_bytes_inv h

theorem parse_body_unbound_inv {l : List Nat} {v : ContentRangeUnbound}
    (h : parse_body l = some (.UnboundBytes v)) : v.first_byte ≤ v.last_byte := by
  unfold parse_body at h
  split at h
  · exact Option.noConfusion h
  rename_i c1 iter1 _
  split at h
  · obtain ⟨n, hn⟩ := parse_unsatisfied_shape h
    exact ContentRange.noConfusion hn
  · exact parse_byte_range_unbound_inv h

theorem parse_opt_some_inv {l : List Nat} {r : ContentRange}
    (h : parse_opt l = some r) : parse_body (l.drop (BYTES_UNIT_LEN + 1)) = some r := by
  unfold parse_opt at h
  split at h
  · split at h
    · exact Option.noConfusion h
    rename_i c0 iter0 hd
    split at h
    · exact Option.noConfusion h
    · have : l.drop (BYTES_UNIT_LEN + 1) = iter0 := by
        rw [show BYTES_UNIT_LEN + 1 = BYTES_UNIT_LEN + 1 from rfl, ← List.drop_drop]
        rw [hd]
        rfl
      rw [this]
      exact h
  · exact Option.noConfusion h

/-- Claim C7: every successfully returned value satisfies its variant's
invariant: a `Bytes` result has `first_byte ≤ last_byte < complete_length`
and an `UnboundBytes` result has `first_byte ≤ last_byte`. -/
theorem claim_c7 :
    (∀ (l : List Nat) (v : ContentRangeBytes), parse_bytes l = .Bytes v →
      v.first_byte ≤ v.last_byte ∧ v.last_byte < v.complete_length)
    ∧ (∀ (l : List Nat) (v : ContentRangeUnbound), parse_bytes l = .UnboundBytes v →
      v.first_byte ≤ v.last_byte) := by
  constructor
  · intro l v h
    unfold parse_bytes at h
    cases ho : parse_opt l with
    | none => rw [ho] at h; exact ContentRange.noConfusion h
    | some r =>
      rw [ho] at h
      simp only [Option.getD_some] at h
      subst h
      exact parse_body_bytes_inv (parse_opt_some_inv ho)
  · intro l v h
    unfold parse_bytes at h
    cases ho : parse_opt l with
    | none => rw [ho] at h; exact ContentRange.noConfusion h
    | some r =>
      rw [ho] at h
      simp only [Option.getD_some] at h
      subst h
      exact parse_body_unbound_inv (parse_opt_some_inv ho)

theorem claim_c7_witness : (0 : Nat) ≤ 9 ∧ (9 : Nat) < 20 :=
  claim_c7.1 [98, 121, 116, 101, 115, 32, 48, 45, 57, 47, 50, 48] ⟨0, 9, 20⟩ (by decide)

end HttpContentRange
